import Mathlib

/-!
Verification of the budget-sherpa rule/transfer core against its
natural-language specification.

The TypeScript sources are shallowly embedded:
* `src/ui/transfers.ts` — `findTransferPairs` (calendar dates are modelled
  as integer day numbers, so `daysBetween` is the absolute difference).
* `src/rules/engine.ts` — `ruleKey`, `matchesCondition`, `matchesRule`,
  `classifyByRuleCoverage` (the JS regular-expression engine used by the
  `matches` operator is treated as an opaque parameter `rx`).
* `src/rules/vetted.ts` — `VettedRuleStore` with the filesystem modelled as
  an association list from paths to store contents.
* the normalizer `extractMatchValue` — the six end-anchored strip regexes
  are implemented directly on character lists (ASCII case model).
-/

namespace BudgetSherpa

/-! ## Transfers (src/ui/transfers.ts) -/

/-- A transaction as consumed by `findTransferPairs`.  Dates are modelled as
integer day numbers; amounts are signed cents. -/
structure Tx where
  id : String
  date : Int
  amount : Int
deriving DecidableEq, Repr

/-- `DATE_TOLERANCE_DAYS` from transfers.ts. -/
def DATE_TOLERANCE_DAYS : Nat := 5

/-- `daysBetween`: absolute day difference (dates modelled as day numbers). -/
def daysBetween (a b : Int) : Nat := (a - b).natAbs

/-- A discovered transfer pair, as in transfers.ts. -/
structure TransferPair where
  outTx : Tx
  inTx : Tx
  outAcctId : String
  inAcctId : String
  outAcctName : String
  inAcctName : String
deriving DecidableEq, Repr

/-- Association-list lookup, modelling JS `Map.get` (first binding wins;
JS maps cannot hold duplicate keys). -/
def recLookup {α : Type} (m : List (String × α)) (k : String) : Option α :=
  (m.find? (fun p => p.1 == k)).map Prod.snd

/-- Mutable state of the `findTransferPairs` loops: the accumulated pairs
and the `used` set of consumed transaction ids. -/
structure PairState where
  pairs : List TransferPair
  used : List String

/-- Construction of the emitted `TransferPair` record (outflow side first),
including the account-name lookups of transfers.ts. -/
def mkPair (names : List (String × String)) (outTx : Tx) (outAcctId : String)
    (inTx : Tx) (inAcctId : String) : TransferPair :=
  { outTx := outTx, inTx := inTx,
    outAcctId := outAcctId, inAcctId := inAcctId,
    outAcctName := (recLookup names outAcctId).getD outAcctId,
    inAcctName := (recLookup names inAcctId).getD inAcctId }

/-- Body of the innermost loop of `findTransferPairs`: try to pair `txA`
(from account `acctA`) with `txB` (from account `acctB`).  The negative-amount
transaction is recorded as the outflow side. -/
def tryPair (names : List (String × String)) (acctA acctB : String)
    (txA txB : Tx) (st : PairState) : PairState :=
  if txA.id ∈ st.used ∨ txB.id ∈ st.used ∨ txA.amount = 0 ∨
      txA.amount ≠ -txB.amount ∨
      DATE_TOLERANCE_DAYS < daysBetween txA.date txB.date then
    st
  else if txA.amount < 0 then
    { pairs := st.pairs ++ [mkPair names txA acctA txB acctB],
      used := st.used ++ [txA.id, txB.id] }
  else
    { pairs := st.pairs ++ [mkPair names txB acctB txA acctA],
      used := st.used ++ [txA.id, txB.id] }

/-- The two inner transaction loops for a fixed ordered account pair. -/
def pairStep (names : List (String × String)) (acctA : String) (txsA : List Tx)
    (acctB : String) (txsB : List Tx) (st : PairState) : PairState :=
  txsA.foldl (fun st1 txA => txsB.foldl (fun st2 txB => tryPair names acctA acctB txA txB st2) st1) st

/-- The outer double loop over unordered account pairs (`i < j`). -/
def accountsLoop (names : List (String × String)) :
    List (String × List Tx) → PairState → PairState
  | [], st => st
  | (a, txsA) :: rest, st =>
      accountsLoop names rest
        (rest.foldl (fun st1 pr => pairStep names a txsA pr.1 pr.2 st1) st)

/-- `findTransferPairs` from transfers.ts.  The `Map` argument is modelled as
an association list (JS maps preserve insertion order). -/
def findTransferPairs (txsByAccount : List (String × List Tx))
    (accountNames : List (String × String)) : List TransferPair :=
  (accountsLoop accountNames txsByAccount { pairs := [], used := [] }).pairs

/-- The two transaction ids consumed by a pair. -/
def pairTxIds (p : TransferPair) : List String := [p.outTx.id, p.inTx.id]

/-- All transaction ids of the input, across accounts. -/
def allTxIds (txsByAccount : List (String × List Tx)) : List String :=
  txsByAccount.flatMap (fun p => p.2.map Tx.id)

/-- The ids consumed by all pairs of a result, in emission order. -/
def pairsTxIds (ps : List TransferPair) : List String := ps.flatMap pairTxIds

/-- Concrete input for witnesses: the spec's transfer scenario (account A has
−19900, account B has +19900, two days apart). -/
def wAccts : List (String × List Tx) :=
  [("A", [{ id := "t1", date := 20, amount := -19900 }]),
   ("B", [{ id := "t2", date := 22, amount := 19900 }])]

/-- Account display names for the witness input. -/
def wNames : List (String × String) := [("A", "Checking"), ("B", "Savings")]

/-- The single pair `findTransferPairs` produces on `wAccts`. -/
def wPair : TransferPair :=
  { outTx := { id := "t1", date := 20, amount := -19900 },
    inTx := { id := "t2", date := 22, amount := 19900 },
    outAcctId := "A", inAcctId := "B",
    outAcctName := "Checking", inAcctName := "Savings" }

/-! ## Normalizer (`extractMatchValue`)

The six strip rules are end-anchored JS regular expressions; each is
implemented directly on the reversed character list.  Because every pattern
is anchored at the end of the string and its character-class repetitions are
bracketed by characters outside the class, each regex has at most one match,
which the functions below compute.  `\s` and `trim` use the JS whitespace
set (modelled here by `isWs`); character classes are ASCII. -/

/-- JS whitespace (`\s`, and the set trimmed by `String.prototype.trim`). -/
def isWs (c : Char) : Bool :=
  let n := c.toNat
  n = 0x20 ∨ n = 0x9 ∨ n = 0xa ∨ n = 0xb ∨ n = 0xc ∨ n = 0xd ∨
    n = 0xa0 ∨ n = 0x1680 ∨ (0x2000 ≤ n ∧ n ≤ 0x200a) ∨
    n = 0x2028 ∨ n = 0x2029 ∨ n = 0x202f ∨ n = 0x205f ∨ n = 0x3000 ∨ n = 0xfeff

/-- `[A-Za-z0-9]` (also `[A-Z0-9]` under the `i` flag). -/
def isAlnum (c : Char) : Bool :=
  ('A' ≤ c ∧ c ≤ 'Z') ∨ ('a' ≤ c ∧ c ≤ 'z') ∨ ('0' ≤ c ∧ c ≤ '9')

/-- `[A-Z]` (case-sensitive). -/
def isUpper (c : Char) : Bool := 'A' ≤ c ∧ c ≤ 'Z'

/-- `\d`. -/
def isDigit (c : Char) : Bool := '0' ≤ c ∧ c ≤ '9'

/-- `String.prototype.trim` on a character list. -/
def trimList (l : List Char) : List Char :=
  (((l.dropWhile isWs).reverse.dropWhile isWs)).reverse

/-- Strip rule 1, `/\*[A-Za-z0-9]{3,}$/`: a trailing run of ≥ 3 alphanumerics
immediately preceded by `*`.  Input and output are reversed strings; `none`
means the regex does not match. -/
def stripRev1 (r : List Char) : Option (List Char) :=
  if 3 ≤ (r.takeWhile isAlnum).length then
    match r.dropWhile isAlnum with
    | '*' :: rest => some rest
    | _ => none
  else none

/-- Strip rule 2, `/\s+-\s*$/`: a trailing dash preceded by whitespace (the
trailing `\s*` is empty because the subject is always trimmed). -/
def stripRev2 (r : List Char) : Option (List Char) :=
  match r with
  | '-' :: r1 => if (r1.takeWhile isWs).length ≥ 1 then some (r1.dropWhile isWs) else none
  | _ => none

/-- Strip rule 3, `/\s+-\s+[A-Z0-9]{1,6}\s*(?:-\s*)?$/i`: a dash-delimited
1–6 character code, optionally followed by another dash. -/
def stripRev3 (r : List Char) : Option (List Char) :=
  let core : List Char → Option (List Char) := fun r2 =>
    let a := r2.takeWhile isAlnum
    if 1 ≤ a.length ∧ a.length ≤ 6 then
      let r3 := r2.dropWhile isAlnum
      if 1 ≤ (r3.takeWhile isWs).length then
        match r3.dropWhile isWs with
        | '-' :: r4 =>
            if 1 ≤ (r4.takeWhile isWs).length then some (r4.dropWhile isWs) else none
        | _ => none
      else none
    else none
  match r with
  | '-' :: r1 => core (r1.dropWhile isWs)
  | _ => core r

/-- Strip rule 4, `/\s+#[0-9A-Z]{1,6}$/i`: a trailing `#`-prefixed 1–6
character code preceded by whitespace. -/
def stripRev4 (r : List Char) : Option (List Char) :=
  let a := r.takeWhile isAlnum
  if 1 ≤ a.length ∧ a.length ≤ 6 then
    match r.dropWhile isAlnum with
    | '#' :: r2 => if 1 ≤ (r2.takeWhile isWs).length then some (r2.dropWhile isWs) else none
    | _ => none
  else none

/-- Strip rule 5, `/\s{2,}[A-Z]{2,4}$/`: a trailing 2–4 letter code preceded
by a run of at least two whitespace characters. -/
def stripRev5 (r : List Char) : Option (List Char) :=
  let a := r.takeWhile isUpper
  if 2 ≤ a.length ∧ a.length ≤ 4 then
    let r2 := r.dropWhile isUpper
    if 2 ≤ (r2.takeWhile isWs).length then some (r2.dropWhile isWs) else none
  else none

/-- Strip rule 6, `/\s+\d{4,}$/`: a trailing run of ≥ 4 digits preceded by
whitespace. -/
def stripRev6 (r : List Char) : Option (List Char) :=
  if 4 ≤ (r.takeWhile isDigit).length then
    let r2 := r.dropWhile isDigit
    if 1 ≤ (r2.takeWhile isWs).length then some (r2.dropWhile isWs) else none
  else none

/-- One candidate strip: `next = s.replace(regex, '').trim(); if
(next.length >= 4) s = next;`.  `f` consumes the reversed string. -/
def applyStrip (f : List Char → Option (List Char)) (s : List Char) : List Char :=
  match f s.reverse with
  | some rest =>
      let next := trimList rest.reverse
      if 4 ≤ next.length then next else s
  | none => s

/-- One pass of the `do` body: the six strip rules in source order. -/
def onePass (s : List Char) : List Char :=
  applyStrip stripRev6 (applyStrip stripRev5 (applyStrip stripRev4
    (applyStrip stripRev3 (applyStrip stripRev2 (applyStrip stripRev1 s)))))

/-- The bounded `do … while (s !== prev && iterations < 5)` loop: at most
`n` passes, stopping early at a fixed point. -/
def extractLoop : Nat → List Char → List Char
  | 0, s => s
  | n + 1, s =>
      let t := onePass s
      if t = s then s else extractLoop n t

/-- `extractMatchValue`: trim, then up to five passes of the strip rules. -/
def extractMatchValue (rawPayee : String) : String :=
  ⟨extractLoop 5 (trimList rawPayee.data)⟩

/-! ## Rule engine (src/rules/engine.ts, src/types.ts) -/

/-- `RuleStage`: `'pre' | null | 'post'` (the categorize stage is the
literal `null` in Actual's rule model). -/
inductive Stage where
  | pre
  | nullStage
  | post
deriving DecidableEq, Repr

/-- `ConditionOp`. -/
inductive CondOp where
  | contains
  | is
  | startsWith
  | endsWith
  | matches
deriving DecidableEq, Repr

/-- `ConditionField`. -/
inductive CondField where
  | imported_payee
  | payee
  | notes
  | amount
deriving DecidableEq, Repr

/-- `ActionField`. -/
inductive ActField where
  | payee
  | category
  | notes
deriving DecidableEq, Repr

/-- A condition's `type: 'string' | 'id'`. -/
inductive CondType where
  | string
  | id
deriving DecidableEq, Repr

/-- `Condition` from types.ts. -/
structure Condition where
  op : CondOp
  field : CondField
  value : String
  type : CondType
deriving DecidableEq, Repr

/-- `Action` from types.ts (`op` is always `'set'`, `type` always `'id'`). -/
structure Action where
  field : ActField
  value : String
deriving DecidableEq, Repr

/-- `conditionsOp: 'and' | 'or'`. -/
inductive CondsOp where
  | and
  | or
deriving DecidableEq, Repr

/-- `Rule` from types.ts; `id` is the unstable external identifier. -/
structure Rule where
  id : Option String
  stage : Stage
  conditionsOp : CondsOp
  conditions : List Condition
  actions : List Action
deriving DecidableEq, Repr

/-- `rule.stage ?? 'null'` as interpolated by `ruleKey`. -/
def stageStr : Stage → String
  | .pre => "pre"
  | .nullStage => "null"
  | .post => "post"

def condFieldStr : CondField → String
  | .imported_payee => "imported_payee"
  | .payee => "payee"
  | .notes => "notes"
  | .amount => "amount"

def condOpStr : CondOp → String
  | .contains => "contains"
  | .is => "is"
  | .startsWith => "starts-with"
  | .endsWith => "ends-with"
  | .matches => "matches"

def actFieldStr : ActField → String
  | .payee => "payee"
  | .category => "category"
  | .notes => "notes"

/-- `ruleKey` from engine.ts:
`` `${rule.stage ?? 'null'}:${c.field}:${c.op}:${c.value}:${a.field}:${a.value}` ``
built from the *first* condition and the *first* action.  Accessing
`conditions[0]`/`actions[0]` of an empty list would be a runtime type error
in the source, modelled here as `none`. -/
def ruleKey (rule : Rule) : Option String :=
  match rule.conditions.head?, rule.actions.head? with
  | some c, some a =>
      some (stageStr rule.stage ++ ":" ++ condFieldStr c.field ++ ":" ++
        condOpStr c.op ++ ":" ++ c.value ++ ":" ++ actFieldStr a.field ++ ":" ++ a.value)
  | _, _ => none

/-- `String.prototype.toLowerCase` (ASCII model, character-wise). -/
def jsLower (s : String) : String := ⟨s.data.map Char.toLower⟩

/-- `matchesCondition` from engine.ts.  The subject is the raw payee for
`imported_payee` conditions and otherwise the clean payee, defaulting to the
empty string (`cleanPayee ?? ''`).  The `matches` operator compiles the
condition value as a case-insensitive regular expression over the
*untransformed* subject; the regex engine is the opaque parameter `rx`. -/
def matchesCondition (rx : String → String → Bool) (condition : Condition)
    (rawPayee : String) (cleanPayee : Option String) : Bool :=
  let subject := if condition.field = CondField.imported_payee then rawPayee
    else cleanPayee.getD ""
  let value := jsLower condition.value
  let s := jsLower subject
  match condition.op with
  | .contains => decide (value.data.IsInfix s.data)
  | .is => s == value
  | .startsWith => value.data.isPrefixOf s.data
  | .endsWith => value.data.isSuffixOf s.data
  | .matches => rx condition.value subject

/-- `matchesRule` from engine.ts: `and` requires every condition, `or` at
least one. -/
def matchesRule (rx : String → String → Bool) (rule : Rule)
    (rawPayee : String) (cleanPayee : Option String) : Bool :=
  if rule.conditionsOp = CondsOp.and then
    rule.conditions.all (fun c => matchesCondition rx c rawPayee cleanPayee)
  else
    rule.conditions.any (fun c => matchesCondition rx c rawPayee cleanPayee)

/-- `CoverageResult` from engine.ts. -/
structure CoverageResult where
  covered : List String
  needsCategory : List String
  uncovered : List String
deriving DecidableEq, Repr

/-- The three buckets of `classifyByRuleCoverage`. -/
inductive Bucket where
  | covered
  | needsCategory
  | uncovered
deriving DecidableEq, Repr

/-- The `hasCategoryRule` search of `classifyByRuleCoverage` (engine.ts
lines 81–88): some null-stage rule whose first condition is on `payee` and
either carries the entity id (id-typed) or — string-typed — makes the whole
rule match the resolved display name (JS-falsy when unresolved or empty). -/
def catTargetsB (rx : String → String → Bool) (nullRules : List Rule)
    (payeeName? : Option String) (payeeId : String) : Bool :=
  nullRules.any (fun r =>
    match r.conditions.head? with
    | none => false
    | some c =>
      if c.field == CondField.payee then
        if c.type == CondType.id then c.value == payeeId
        else
          match payeeName? with
          | some payeeName =>
              if payeeName = "" then false
              else matchesRule rx r "" (some payeeName)
          | none => false
      else false)

/-- The first payee-setting action's value (`actions.find(a => a.field ===
'payee')?.value`). -/
def payeeActionId (r : Rule) : Option String :=
  (r.actions.find? (fun a => a.field == ActField.payee)).map Action.value

/-- The loop body of `classifyByRuleCoverage` for one raw payee (engine.ts
lines 67–94): find the first matching pre-stage rule, extract its payee
action value (`!payeeId` is JS-falsy for both a missing action and an empty
string), then search the null-stage rules for a categorize rule targeting
the same entity. -/
def classifyOne (rx : String → String → Bool) (preRules nullRules : List Rule)
    (payeeById : List (String × String)) (rawPayee : String) : Bucket :=
  match preRules.find? (fun r => matchesRule rx r rawPayee none) with
  | none => .uncovered
  | some preRule =>
    match payeeActionId preRule with
    | none => .uncovered
    | some payeeId =>
      if payeeId = "" then .uncovered
      else if catTargetsB rx nullRules (recLookup payeeById payeeId) payeeId then
        .covered
      else .needsCategory

/-- `classifyByRuleCoverage` from engine.ts: partition the unique raw payees
into the three buckets, preserving input order. -/
def classifyByRuleCoverage (rx : String → String → Bool) (rules : List Rule)
    (uniqueRawPayees : List String) (payeeById : List (String × String)) :
    CoverageResult :=
  let preRules := rules.filter (fun r => r.stage == Stage.pre)
  let nullRules := rules.filter (fun r => r.stage == Stage.nullStage)
  uniqueRawPayees.foldl (fun acc rawPayee =>
    match classifyOne rx preRules nullRules payeeById rawPayee with
    | .covered => { acc with covered := acc.covered ++ [rawPayee] }
    | .needsCategory => { acc with needsCategory := acc.needsCategory ++ [rawPayee] }
    | .uncovered => { acc with uncovered := acc.uncovered ++ [rawPayee] })
    { covered := [], needsCategory := [], uncovered := [] }

/-! ## Vetted rule store (src/rules/vetted.ts)

JS `Record` objects are modelled as insertion-ordered association lists
with unique keys: assignment overwrites in place or appends, `delete`
removes, `in` tests membership.  The filesystem is an association list from
paths to parsed store files; `writeFileSync` overwrites the path binding. -/

/-- JS object property assignment `m[k] = v`: overwrite in place, else
append. -/
def recInsert {α : Type} (m : List (String × α)) (k : String) (v : α) :
    List (String × α) :=
  if m.any (fun p => p.1 == k) then
    m.map (fun p => if p.1 == k then (k, v) else p)
  else m ++ [(k, v)]

/-- JS `delete m[k]`. -/
def recErase {α : Type} (m : List (String × α)) (k : String) :
    List (String × α) :=
  m.filter (fun p => !(p.1 == k))

/-- JS `k in m`. -/
def recHas {α : Type} (m : List (String × α)) (k : String) : Bool :=
  m.any (fun p => p.1 == k)

/-- `VettedRule` from types.ts. -/
structure VettedRule where
  key : String
  stage : Stage
  matchField : CondField
  matchOp : CondOp
  matchValue : String
  actionField : ActField
  actionValue : String
  vettedAt : String
deriving DecidableEq, Repr

/-- The persisted store file: `{version: 1, rules, tags}` (tag value `none`
models the explicit JSON `null`). -/
structure VettedStoreData where
  rules : List (String × VettedRule)
  tags : List (String × Option String)
deriving DecidableEq, Repr

/-- The filesystem: path → parsed store file. -/
def FS : Type := List (String × VettedStoreData)

/-- In-memory state of a `VettedRuleStore` instance. -/
structure StoreState where
  path : String
  store : VettedStoreData
  sessionKeys : List String
deriving DecidableEq, Repr

/-- The `VettedRuleStore` constructor: load the file at `path` if it exists,
else start with an empty store; `sessionKeys` starts empty. -/
def newStore (fs : FS) (path : String) : StoreState :=
  { path := path,
    store := (recLookup fs path).getD { rules := [], tags := [] },
    sessionKeys := [] }

/-- `isVetted(key)`. -/
def isVetted (st : StoreState) (key : String) : Bool :=
  recHas st.store.rules key

/-- `Set.prototype.add`. -/
def addSessionKey (l : List String) (k : String) : List String :=
  if l.contains k then l else l ++ [k]

/-- `save()`: `writeFileSync(path, …)`, modelled as overwriting the path
binding of the filesystem. -/
def saveStore (st : StoreState) (fs : FS) : FS :=
  recInsert fs st.path st.store

/-- `approve(rule)`: insert or overwrite by `rule.key`, refreshing
`vettedAt` to the current time, record the key as touched this session, and
persist immediately. -/
def approve (st : StoreState) (fs : FS) (rule : VettedRule) (now : String) :
    StoreState × FS :=
  let st' : StoreState :=
    { st with
      store := { st.store with
        rules := recInsert st.store.rules rule.key { rule with vettedAt := now } },
      sessionKeys := addSessionKey st.sessionKeys rule.key }
  (st', saveStore st' fs)

/-- `remove(key)`: delete the entry, clear it from the session set, and
persist immediately. -/
def removeRule (st : StoreState) (fs : FS) (key : String) : StoreState × FS :=
  let st' : StoreState :=
    { st with
      store := { st.store with rules := recErase st.store.rules key },
      sessionKeys := st.sessionKeys.filter (fun k => !(k == key)) }
  (st', saveStore st' fs)

/-- `getAllRules()`: `Object.values(this.store.rules)`. -/
def getAllRules (st : StoreState) : List VettedRule :=
  st.store.rules.map Prod.snd

/-- The `nameToId` map of `cleanCoveredByActual`: built from
`payeeById` entries as `name.toLowerCase() → id`; a later entry with the
same lowered name overwrites an earlier one, so lookup finds the last. -/
def nameToIdGet (payeeById : List (String × String)) (loweredName : String) :
    Option String :=
  (payeeById.reverse.find? (fun p => jsLower p.2 == loweredName)).map Prod.fst

/-- One external pre-stage rule covering a local vetted rule
(`isCoveredByActual` in vetted.ts): same first-condition op/field, equal
match value up to case, and a first action setting `payee` to the resolved
entity id. -/
def arCoversB (ar : Rule) (vr : VettedRule) (payeeId : String) : Bool :=
  match ar.conditions.head?, ar.actions.head? with
  | some c, some a =>
      c.op == vr.matchOp && c.field == vr.matchField &&
        jsLower c.value == jsLower vr.matchValue &&
        a.field == ActField.payee && a.value == payeeId
  | _, _ => false

/-- One external null-stage rule representing the local categorize decision
(`catCovered` in vetted.ts): first condition on `payee` whose value is the
entity id or (case-insensitively) the clean name. -/
def catCoversB (ar : Rule) (vr : VettedRule) (payeeId : String) : Bool :=
  match ar.conditions.head? with
  | some c =>
      c.field == CondField.payee &&
        (c.value == payeeId || jsLower c.value == jsLower vr.actionValue)
  | none => false

/-- Mutable state of the `cleanCoveredByActual` loop. -/
structure CleanAcc where
  rules : List (String × VettedRule)
  tags : List (String × Option String)
  sessionKeys : List String
  changed : Bool
deriving DecidableEq, Repr

/-- One iteration of the `cleanCoveredByActual` loop for a snapshot entry
`vr` (vetted.ts lines 161–201): resolve the entity id from the clean name;
if an external pre-stage rule covers `vr`, delete it, delete the first
associated local categorize rule when an external null-stage rule also
represents it, and delete the tag entry for the clean name. -/
def cleanStep (preActualRules nullActualRules : List Rule)
    (payeeById : List (String × String)) (acc : CleanAcc) (vr : VettedRule) :
    CleanAcc :=
  match nameToIdGet payeeById (jsLower vr.actionValue) with
  | none => acc
  | some payeeId =>
    if preActualRules.any (fun ar => arCoversB ar vr payeeId) then
      let rules1 := recErase acc.rules vr.key
      let sk1 := acc.sessionKeys.filter (fun k => !(k == vr.key))
      let catRule? := (rules1.map Prod.snd).find? (fun r =>
        r.stage == Stage.nullStage && jsLower r.matchValue == jsLower vr.actionValue)
      let step2 : List (String × VettedRule) × List String :=
        match catRule? with
        | some catRule =>
            if nullActualRules.any (fun ar => catCoversB ar vr payeeId) then
              (recErase rules1 catRule.key, sk1.filter (fun k => !(k == catRule.key)))
            else (rules1, sk1)
        | none => (rules1, sk1)
      let tags2 := if recHas acc.tags vr.actionValue then recErase acc.tags vr.actionValue
        else acc.tags
      { rules := step2.1, tags := tags2, sessionKeys := step2.2, changed := true }
    else acc

/-- `cleanCoveredByActual(actualRules, payeeById)` from vetted.ts: iterate
over a snapshot of the local pre-stage rules, removing the ones already
fully represented in Actual's rule set, and save once if anything changed. -/
def cleanCoveredByActual (st : StoreState) (fs : FS) (actualRules : List Rule)
    (payeeById : List (String × String)) : StoreState × FS :=
  let preActualRules := actualRules.filter (fun r => r.stage == Stage.pre)
  let nullActualRules := actualRules.filter (fun r => r.stage == Stage.nullStage)
  let snapshot := (getAllRules st).filter (fun r => r.stage == Stage.pre)
  let acc := snapshot.foldl (cleanStep preActualRules nullActualRules payeeById)
    { rules := st.store.rules, tags := st.store.tags,
      sessionKeys := st.sessionKeys, changed := false }
  let st' : StoreState :=
    { path := st.path, store := { rules := acc.rules, tags := acc.tags },
      sessionKeys := acc.sessionKeys }
  (st', if acc.changed then saveStore st' fs else fs)

/-- Whether `cleanCoveredByActual` considers a local pre-stage rule covered
by the external rule set: the clean name resolves to an entity id and some
external pre-stage rule encodes the same
`(matchOp, matchField, matchValue) → id` mapping. -/
def isCoveredB (preActualRules : List Rule) (payeeById : List (String × String))
    (vr : VettedRule) : Bool :=
  match nameToIdGet payeeById (jsLower vr.actionValue) with
  | none => false
  | some payeeId => preActualRules.any (fun ar => arCoversB ar vr payeeId)

/-- Whether some external null-stage rule represents a local categorize rule
`cr`: a first condition on `payee` whose value is the id that
`cr.matchValue` resolves to, or the name itself (case-insensitively). -/
def catRepresentedB (nullActualRules : List Rule)
    (payeeById : List (String × String)) (cr : VettedRule) : Bool :=
  nullActualRules.any (fun ar =>
    match ar.conditions.head? with
    | some c =>
        c.field == CondField.payee &&
          (nameToIdGet payeeById (jsLower cr.matchValue) == some c.value ||
            jsLower c.value == jsLower cr.matchValue)
    | none => false)

/-- The accept branch of `consolidateVettedRules` for one group (part_010
lines 421–437): remove every rule of the group by key, then approve a single
consolidated pre-stage `contains` rule carrying the group's clean name
(taken from the first rule as template) and the accepted match pattern. -/
def consolidateVettedRulesAccept (st : StoreState) (fs : FS)
    (group : List VettedRule) (matchValue : String) (now : String) :
    StoreState × FS :=
  let removed := group.foldl (fun (p : StoreState × FS) rule => removeRule p.1 p.2 rule.key)
    (st, fs)
  match group.head? with
  | none => removed
  | some template =>
      let newKey := "pre:imported_payee:contains:" ++ matchValue ++ ":payee:" ++
        template.actionValue
      approve removed.1 removed.2
        { key := newKey, stage := Stage.pre, matchField := CondField.imported_payee,
          matchOp := CondOp.contains, matchValue := matchValue,
          actionField := ActField.payee, actionValue := template.actionValue,
          vettedAt := now } now

/-- A concrete vetted rule for witnesses. -/
def wRule : VettedRule :=
  { key := "pre:imported_payee:contains:AMAZON MKTPL:payee:Amazon",
    stage := Stage.pre, matchField := CondField.imported_payee,
    matchOp := CondOp.contains, matchValue := "AMAZON MKTPL",
    actionField := ActField.payee, actionValue := "Amazon", vettedAt := "" }

/-- A second vetted rule with the same key (a re-approval). -/
def wRule2 : VettedRule := { wRule with matchValue := "AMAZON" }

/-- A concrete pre-stage condition for witnesses. -/
def wCondAmazon : Condition :=
  { op := CondOp.contains, field := CondField.imported_payee,
    value := "AMAZON", type := CondType.string }

/-- A concrete extra condition (ignored by `ruleKey`). -/
def wCondNotes : Condition :=
  { op := CondOp.is, field := CondField.notes, value := "x",
    type := CondType.string }

/-- An empty-valued `contains` condition on `notes`. -/
def wCondContainsEmpty : Condition :=
  { op := CondOp.contains, field := CondField.notes, value := "",
    type := CondType.string }

/-- A non-empty `is` condition on `notes`. -/
def wCondIsX : Condition :=
  { op := CondOp.is, field := CondField.notes, value := "x",
    type := CondType.string }

/-- A concrete payee action. -/
def wActPayee : Action := { field := ActField.payee, value := "p1" }

/-- A rule with one condition and external id `ext-1`. -/
def wRuleA : Rule :=
  { id := some "ext-1", stage := Stage.pre, conditionsOp := CondsOp.and,
    conditions := [wCondAmazon], actions := [wActPayee] }

/-- A rule with the same first condition/action but another external id and
a second condition. -/
def wRuleB : Rule :=
  { id := some "ext-2", stage := Stage.pre, conditionsOp := CondsOp.and,
    conditions := [wCondAmazon, wCondNotes], actions := [wActPayee] }

/-- The key the consolidated rule is stored under. -/
def consolidatedKey (matchValue actionValue : String) : String :=
  "pre:imported_payee:contains:" ++ matchValue ++ ":payee:" ++ actionValue

/-- The single rule `consolidateVettedRules` approves for a group. -/
def consolidatedRule (matchValue actionValue now : String) : VettedRule :=
  { key := consolidatedKey matchValue actionValue, stage := Stage.pre,
    matchField := CondField.imported_payee, matchOp := CondOp.contains,
    matchValue := matchValue, actionField := ActField.payee,
    actionValue := actionValue, vettedAt := now }

/-- First member of a concrete consolidation group. -/
def wCapRule1 : VettedRule :=
  { key := "k1", stage := Stage.pre, matchField := CondField.imported_payee,
    matchOp := CondOp.contains, matchValue := "CAPITAL ONE MOBILE",
    actionField := ActField.payee, actionValue := "Capital One", vettedAt := "" }

/-- Second member of the group (different match pattern, same clean name). -/
def wCapRule2 : VettedRule :=
  { key := "k2", stage := Stage.pre, matchField := CondField.imported_payee,
    matchOp := CondOp.contains, matchValue := "CAPITAL ONE CRCARDPMT DES",
    actionField := ActField.payee, actionValue := "Capital One", vettedAt := "" }

/-- A store holding exactly the two-rule consolidation group. -/
def wConsolStore : StoreState :=
  { path := "vetted.json",
    store := { rules := [("k1", wCapRule1), ("k2", wCapRule2)], tags := [] },
    sessionKeys := [] }

/-- A lower-cased pre-stage condition used by the external counterpart. -/
def wCondAmazonLower : Condition :=
  { op := CondOp.contains, field := CondField.imported_payee,
    value := "amazon", type := CondType.string }

/-- An external pre-stage rule structurally covering `wCleanVr`. -/
def wExtPre : Rule :=
  { id := some "ext-9", stage := Stage.pre, conditionsOp := CondsOp.and,
    conditions := [wCondAmazonLower], actions := [wActPayee] }

/-- A locally vetted pre-stage rule mapping "AMAZON" to clean name
"Amazon". -/
def wCleanVr : VettedRule :=
  { key := "kv", stage := Stage.pre, matchField := CondField.imported_payee,
    matchOp := CondOp.contains, matchValue := "AMAZON",
    actionField := ActField.payee, actionValue := "Amazon", vettedAt := "" }

/-- A store holding `wCleanVr` and a tag decision for its clean name. -/
def wCleanStore : StoreState :=
  { path := "vetted.json",
    store := { rules := [("kv", wCleanVr)], tags := [("Amazon", some "shopping")] },
    sessionKeys := [] }

/-- The payee id resolver used in the reconciliation scenarios. -/
def wPayeeById : List (String × String) := [("p1", "Amazon")]

/-- A regex stub for concrete scenarios without `matches` conditions. -/
def rxNone : String → String → Bool := fun _ _ => false

/-- An external pre-stage rule for the coverage scenarios. -/
def wCxPreRule : Rule :=
  { id := some "r1", stage := Stage.pre, conditionsOp := CondsOp.and,
    conditions := [wCondAmazonLower], actions := [wActPayee] }

/-- A string-typed `contains` condition on the clean payee whose value is a
strict substring of the display name. -/
def wCondAmaContains : Condition :=
  { op := CondOp.contains, field := CondField.payee, value := "AMA",
    type := CondType.string }

/-- A category-setting action. -/
def wActCategory : Action := { field := ActField.category, value := "c1" }

/-- A categorize (null-stage) rule authored in Actual's own UI: literal
condition, not an id. -/
def wCxCatRule : Rule :=
  { id := some "r2", stage := Stage.nullStage, conditionsOp := CondsOp.and,
    conditions := [wCondAmaContains], actions := [wActCategory] }

/-- Payee-id resolver for the coverage scenarios. -/
def wCxPayeeById : List (String × String) := [("p1", "Amazon Marketplace")]

/-! ### Invariants of the pairing loop -/

/-- The invariant behind transfer-pairing exclusivity: the ids consumed by
the recorded pairs are pairwise distinct and all lie in the `used` set. -/
def ExclInv (st : PairState) : Prop :=
  (pairsTxIds st.pairs).Nodup ∧ ∀ x ∈ pairsTxIds st.pairs, x ∈ st.used

/-- A generic preservation lemma for `List.foldl`. -/
theorem foldl_preserve {α β : Type} (P : α → Prop) (f : α → β → α) :
    ∀ (l : List β), (∀ b ∈ l, ∀ a, P a → P (f a b)) → ∀ a, P a → P (l.foldl f a)
  | [], _, _, ha => ha
  | b :: l, h, a, ha =>
      foldl_preserve P f l (fun b' hb' => h b' (List.mem_cons_of_mem _ hb'))
        (f a b) (h b (List.mem_cons_self _ _) a ha)

theorem pairsTxIds_append (ps qs : List TransferPair) :
    pairsTxIds (ps ++ qs) = pairsTxIds ps ++ pairsTxIds qs := by
  simp [pairsTxIds]

/-- `tryPair` preserves the exclusivity invariant provided the two candidate
transactions have distinct ids. -/
theorem tryPair_exclInv (names : List (String × String)) (acctA acctB : String)
    (txA txB : Tx) (st : PairState) (hne : txA.id ≠ txB.id) (h : ExclInv st) :
    ExclInv (tryPair names acctA acctB txA txB st) := by
  obtain ⟨hnd, hsub⟩ := h
  unfold tryPair
  split
  · exact ⟨hnd, hsub⟩
  · rename_i hg
    push_neg at hg
    obtain ⟨hA, hB, -, -, -⟩ := hg
    have key : ∀ q : TransferPair,
        (q.outTx.id = txA.id ∧ q.inTx.id = txB.id) ∨
          (q.outTx.id = txB.id ∧ q.inTx.id = txA.id) →
        ExclInv { pairs := st.pairs ++ [q], used := st.used ++ [txA.id, txB.id] } := by
      intro q hq
      constructor
      · rw [pairsTxIds_append, List.nodup_append]
        refine ⟨hnd, ?_, ?_⟩
        · rcases hq with ⟨h1, h2⟩ | ⟨h1, h2⟩ <;>
            simp [pairsTxIds, pairTxIds, h1, h2, hne, Ne.symm hne]
        · intro x hx hx2
          have hxu := hsub x hx
          rcases hq with ⟨h1, h2⟩ | ⟨h1, h2⟩ <;>
            simp only [pairsTxIds, pairTxIds, List.flatMap_cons, List.flatMap_nil,
              List.append_nil, List.mem_cons, List.not_mem_nil, or_false,
              h1, h2] at hx2 <;>
            rcases hx2 with rfl | rfl <;> first | exact hA hxu | exact hB hxu
      · intro x hx
        rw [pairsTxIds_append, List.mem_append] at hx
        rcases hx with hx | hx
        · exact List.mem_append_left _ (hsub x hx)
        · refine List.mem_append_right _ ?_
          rcases hq with ⟨h1, h2⟩ | ⟨h1, h2⟩ <;>
            simp only [pairsTxIds, pairTxIds, List.flatMap_cons, List.flatMap_nil,
              List.append_nil, List.mem_cons, List.not_mem_nil, or_false,
              h1, h2] at hx <;>
            simp only [List.mem_cons, List.not_mem_nil, or_false] <;> tauto
    split
    · exact key _ (Or.inl ⟨rfl, rfl⟩)
    · exact key _ (Or.inr ⟨rfl, rfl⟩)

/-- The amount/date/orientation law satisfied by every emitted pair. -/
def PairLaw (p : TransferPair) : Prop :=
  p.outTx.amount < 0 ∧ 0 < p.inTx.amount ∧ p.inTx.amount = -p.outTx.amount ∧
    daysBetween p.outTx.date p.inTx.date ≤ DATE_TOLERANCE_DAYS

/-- The law invariant of the pairing loop. -/
def LawInv (st : PairState) : Prop := ∀ p ∈ st.pairs, PairLaw p

/-- `tryPair` preserves the amount/date law invariant. -/
theorem tryPair_lawInv (names : List (String × String)) (acctA acctB : String)
    (txA txB : Tx) (st : PairState) (h : LawInv st) :
    LawInv (tryPair names acctA acctB txA txB st) := by
  unfold tryPair
  split
  · exact h
  · rename_i hg
    push_neg at hg
    obtain ⟨-, -, hz, hamt, hd⟩ := hg
    have hBA : txB.amount = -txA.amount := by omega
    split
    · rename_i hneg
      intro p hp
      rcases List.mem_append.mp hp with hp | hp
      · exact h p hp
      · rcases List.mem_singleton.mp hp with rfl
        exact ⟨by simp only [mkPair]; omega, by simp only [mkPair]; omega,
          by simp only [mkPair]; omega, by simp only [mkPair]; exact hd⟩
    · rename_i hpos
      intro p hp
      rcases List.mem_append.mp hp with hp | hp
      · exact h p hp
      · rcases List.mem_singleton.mp hp with rfl
        refine ⟨by simp [mkPair]; omega, by simp [mkPair]; omega, by simp [mkPair]; omega, ?_⟩
        simp only [mkPair]
        unfold daysBetween at hd ⊢
        omega

/-- The inner double transaction loop preserves exclusivity when the two
account transaction lists have no id in common. -/
theorem pairStep_exclInv (names : List (String × String)) (a : String) (txsA : List Tx)
    (b : String) (txsB : List Tx)
    (hdisj : ∀ txA ∈ txsA, ∀ txB ∈ txsB, txA.id ≠ txB.id) :
    ∀ st, ExclInv st → ExclInv (pairStep names a txsA b txsB st) := by
  intro st h
  unfold pairStep
  refine foldl_preserve ExclInv _ txsA ?_ st h
  intro txA hA st1 h1
  refine foldl_preserve ExclInv _ txsB ?_ st1 h1
  intro txB hB st2 h2
  exact tryPair_exclInv names a b txA txB st2 (hdisj txA hA txB hB) h2

/-- The account-pair loop preserves exclusivity when all transaction ids of
the input are distinct. -/
theorem accountsLoop_exclInv (names : List (String × String)) :
    ∀ (accts : List (String × List Tx)) (st : PairState),
      (allTxIds accts).Nodup → ExclInv st → ExclInv (accountsLoop names accts st)
  | [], _, _, h => h
  | (a, txsA) :: rest, st, hids, h => by
      unfold accountsLoop
      have hids' : (allTxIds ((a, txsA) :: rest)) =
          txsA.map Tx.id ++ allTxIds rest := by simp [allTxIds]
      rw [hids'] at hids
      obtain ⟨-, hrest, hdisj⟩ := List.nodup_append.mp hids
      refine accountsLoop_exclInv names rest _ hrest ?_
      refine foldl_preserve ExclInv _ rest ?_ st h
      intro pr hpr st1 h1
      refine pairStep_exclInv names a txsA pr.1 pr.2 ?_ st1 h1
      intro txA hA txB hB heq
      have h1 : txA.id ∈ txsA.map Tx.id := List.mem_map_of_mem _ hA
      have h2 : txB.id ∈ allTxIds rest := by
        refine List.mem_flatMap.mpr ⟨pr, hpr, ?_⟩
        exact List.mem_map_of_mem _ hB
      rw [heq] at h1
      exact hdisj h1 h2

/-- The law invariant is preserved by the whole loop, unconditionally. -/
theorem accountsLoop_lawInv (names : List (String × String)) :
    ∀ (accts : List (String × List Tx)) (st : PairState),
      LawInv st → LawInv (accountsLoop names accts st)
  | [], _, h => h
  | (a, txsA) :: rest, st, h => by
      unfold accountsLoop
      refine accountsLoop_lawInv names rest _ ?_
      refine foldl_preserve LawInv _ rest ?_ st h
      intro pr _ st1 h1
      unfold pairStep
      refine foldl_preserve LawInv _ txsA ?_ st1 h1
      intro txA _ st2 h2
      refine foldl_preserve LawInv _ pr.2 ?_ st2 h2
      intro txB _ st3 h3
      exact tryPair_lawInv names a pr.1 txA txB st3 h3

/-- C1: for every input to `findTransferPairs` (a map from account id to
transaction list, all transaction ids distinct), no transaction id appears in
more than one returned pair: the ids consumed by the output pairs are
pairwise distinct, so each transaction is consumed by at most one
`TransferPair`. -/
theorem transfer_pairing_exclusivity (txsByAccount : List (String × List Tx))
    (accountNames : List (String × String))
    (_hacct : (txsByAccount.map Prod.fst).Nodup)
    (hids : (allTxIds txsByAccount).Nodup) :
    (pairsTxIds (findTransferPairs txsByAccount accountNames)).Nodup := by
  have h := accountsLoop_exclInv accountNames txsByAccount
    { pairs := [], used := [] } hids ⟨List.nodup_nil, by simp [pairsTxIds]⟩
  exact h.1

/-- Witness for C1 at the spec's transfer scenario. -/
theorem transfer_pairing_exclusivity_witness :
    (pairsTxIds (findTransferPairs wAccts wNames)).Nodup :=
  transfer_pairing_exclusivity wAccts wNames (by decide) (by decide)

/-- C2: every pair returned by `findTransferPairs` has a negative-amount
outflow side and a positive-amount inflow side (hence both non-zero) with
`inTx.amount = -outTx.amount`, and the absolute day difference of the two
dates is at most `DATE_TOLERANCE_DAYS = 5`. -/
theorem transfer_amount_date_law (txsByAccount : List (String × List Tx))
    (accountNames : List (String × String)) :
    ∀ p ∈ findTransferPairs txsByAccount accountNames,
      p.outTx.amount < 0 ∧ 0 < p.inTx.amount ∧ p.inTx.amount = -p.outTx.amount ∧
        daysBetween p.outTx.date p.inTx.date ≤ DATE_TOLERANCE_DAYS := by
  intro p hp
  exact accountsLoop_lawInv accountNames txsByAccount
    { pairs := [], used := [] } (by intro q hq; cases hq) p hp

/-- Witness for C2: the single pair produced by the scenario input satisfies
the amount/date law; the outflow side is account A's transaction. -/
theorem transfer_amount_date_law_witness :
    wPair.outTx.amount < 0 ∧ 0 < wPair.inTx.amount ∧
      wPair.inTx.amount = -wPair.outTx.amount ∧
      daysBetween wPair.outTx.date wPair.inTx.date ≤ DATE_TOLERANCE_DAYS :=
  transfer_amount_date_law wAccts wNames wPair (by decide)

/-! ### Normalizer theorems -/

theorem dropWhile_dropWhile (p : Char → Bool) (l : List Char) :
    (l.dropWhile p).dropWhile p = l.dropWhile p := by
  induction l with
  | nil => rfl
  | cons a t ih => by_cases h : p a <;> simp [List.dropWhile_cons, h, ih]

/-- A prefix of a list that survives `dropWhile` also survives it. -/
theorem dropWhile_eq_self_of_prefix (p : Char → Bool) (w z : List Char)
    (hz : z.dropWhile p = z) (hw : w <+: z) : w.dropWhile p = w := by
  cases w with
  | nil => rfl
  | cons a t =>
      obtain ⟨rest, hrest⟩ := hw
      rw [List.cons_append] at hrest
      have ha : p a = false := by
        by_contra hpa
        rw [Bool.not_eq_false] at hpa
        have heq : z.dropWhile p = (t ++ rest).dropWhile p := by
          rw [← hrest, List.dropWhile_cons_of_pos hpa]
        rw [hz, ← hrest] at heq
        have hlen : ((t ++ rest).dropWhile p).length ≤ (t ++ rest).length :=
          (List.dropWhile_suffix p).length_le
        have hlen2 := congrArg List.length heq
        simp only [List.length_cons] at hlen2
        omega
      rw [List.dropWhile_cons_of_neg (by simp [ha])]

/-- `trimList` is idempotent: a trimmed string has nothing left to trim. -/
theorem trimList_trimList (l : List Char) : trimList (trimList l) = trimList l := by
  have hz : (l.dropWhile isWs).dropWhile isWs = l.dropWhile isWs :=
    dropWhile_dropWhile isWs l
  have hpre : trimList l <+: l.dropWhile isWs := by
    rw [← List.reverse_suffix]
    unfold trimList
    rw [List.reverse_reverse]
    exact List.dropWhile_suffix isWs
  have hlead : (trimList l).dropWhile isWs = trimList l :=
    dropWhile_eq_self_of_prefix isWs _ _ hz hpre
  have htrail : (trimList l).reverse.dropWhile isWs = (trimList l).reverse := by
    unfold trimList
    rw [List.reverse_reverse]
    exact dropWhile_dropWhile isWs _
  have hdef : trimList (trimList l) =
      (((trimList l).dropWhile isWs).reverse.dropWhile isWs).reverse := rfl
  rw [hdef, hlead, htrail, List.reverse_reverse]

/-- Every branch of `applyStrip` returns a trimmed string when given one. -/
theorem applyStrip_trimmed (f : List Char → Option (List Char)) (s : List Char)
    (hs : trimList s = s) : trimList (applyStrip f s) = applyStrip f s := by
  unfold applyStrip
  cases f s.reverse with
  | none => exact hs
  | some rest =>
      simp only
      split
      · exact trimList_trimList rest.reverse
      · exact hs

theorem onePass_trimmed (s : List Char) (hs : trimList s = s) :
    trimList (onePass s) = onePass s := by
  unfold onePass
  exact applyStrip_trimmed _ _ (applyStrip_trimmed _ _ (applyStrip_trimmed _ _
    (applyStrip_trimmed _ _ (applyStrip_trimmed _ _ (applyStrip_trimmed _ _ hs)))))

theorem extractLoop_trimmed : ∀ (n : Nat) (s : List Char), trimList s = s →
    trimList (extractLoop n s) = extractLoop n s
  | 0, _, hs => hs
  | n + 1, s, hs => by
      simp only [extractLoop]
      split
      · exact hs
      · exact extractLoop_trimmed n _ (onePass_trimmed s hs)

set_option maxHeartbeats 1600000 in
/-- C3 (counterexample): the normalizer is not idempotent.  The 5-pass
iteration cap stops before the fixed point on a string carrying six
strippable numeric suffixes, and a second application strips further. -/
theorem normalizer_idempotence_cx :
    extractMatchValue (extractMatchValue "ABCD 1111 2222 3333 4444 5555 6666") ≠
      extractMatchValue "ABCD 1111 2222 3333 4444 5555 6666" := by decide

theorem data_mk (l : List Char) : (⟨l⟩ : String).data = l := rfl

/-- `extractLoop` returns its argument unchanged at a fixed point of
`onePass`. -/
theorem extractLoop_fixed (n : Nat) (t : List Char) (h : onePass t = t) :
    extractLoop n t = t := by
  cases n with
  | zero => rfl
  | succ n => simp only [extractLoop, h, if_pos]

/-- C3 (amended): the normalizer is idempotent on every input whose
normal form is a fixed point of a single pass of the strip rules — i.e.
whenever the bounded 5-pass loop actually converged. -/
theorem extractMatchValue_idempotent_of_converged (s : String)
    (h : onePass (extractMatchValue s).data = (extractMatchValue s).data) :
    extractMatchValue (extractMatchValue s) = extractMatchValue s := by
  simp only [extractMatchValue, data_mk] at h ⊢
  rw [extractLoop_trimmed 5 _ (trimList_trimList s.data)]
  rw [extractLoop_fixed 5 _ h]

set_option maxHeartbeats 1600000 in
/-- Witness for the amended C3 at the spec's first concrete scenario. -/
theorem extractMatchValue_idempotent_witness :
    onePass (extractMatchValue "AMAZON MKTPL*0C2091XO3").data =
        (extractMatchValue "AMAZON MKTPL*0C2091XO3").data ∧
      extractMatchValue (extractMatchValue "AMAZON MKTPL*0C2091XO3") =
        extractMatchValue "AMAZON MKTPL*0C2091XO3" :=
  ⟨by decide, extractMatchValue_idempotent_of_converged _ (by decide)⟩

set_option maxHeartbeats 1600000 in
/-- C4 (counterexample): `len(s) ≥ 4` does not guarantee
`len(normalize(s)) ≥ 4`: the initial `trim` is not covered by the 4-character
guard, so a 4-character input with trailing spaces shrinks below 4. -/
theorem normalizer_length_guard_cx :
    ("A   " : String).length = 4 ∧ extractMatchValue "A   " = "A" ∧
      ¬ 4 ≤ (extractMatchValue "A   ").length := by decide

theorem applyStrip_length (f : List Char → Option (List Char)) (s : List Char)
    (hs : 4 ≤ s.length) : 4 ≤ (applyStrip f s).length := by
  unfold applyStrip
  cases f s.reverse with
  | none => exact hs
  | some rest =>
      simp only
      split
      · assumption
      · exact hs

theorem onePass_length (s : List Char) (hs : 4 ≤ s.length) :
    4 ≤ (onePass s).length := by
  unfold onePass
  exact applyStrip_length _ _ (applyStrip_length _ _ (applyStrip_length _ _
    (applyStrip_length _ _ (applyStrip_length _ _ (applyStrip_length _ _ hs)))))

theorem extractLoop_length : ∀ (n : Nat) (s : List Char), 4 ≤ s.length →
    4 ≤ (extractLoop n s).length
  | 0, _, hs => hs
  | n + 1, s, hs => by
      simp only [extractLoop]
      split
      · exact hs
      · exact extractLoop_length n _ (onePass_length s hs)

/-- C4 (amended): whenever the *trimmed* input still has at least 4
characters, the normalizer's output has at least 4 characters — every strip
is guarded to retain at least 4 characters, but the initial `trim` is not. -/
theorem extractMatchValue_length_guard (s : String)
    (h : 4 ≤ (trimList s.data).length) : 4 ≤ (extractMatchValue s).length :=
  extractLoop_length 5 (trimList s.data) h

set_option maxHeartbeats 1600000 in
/-- Witness for the amended C4: `"GAS #1"` is trimmed, 6 characters long, and
normalizes to itself (the guard rejects the 3-character strip result). -/
theorem extractMatchValue_length_guard_witness :
    4 ≤ (trimList ("GAS #1" : String).data).length ∧
      4 ≤ (extractMatchValue "GAS #1").length :=
  ⟨by decide, extractMatchValue_length_guard _ (by decide)⟩

/-! ### Association-list lemmas -/

/-- Overwriting assignment on a key that is present: lookup finds the new
value. -/
theorem recLookup_overwrite {α : Type} (k : String) (v : α) :
    ∀ (m : List (String × α)), m.any (fun p => p.1 == k) = true →
      recLookup (m.map (fun p => if p.1 == k then (k, v) else p)) k = some v
  | [], h => by simp at h
  | p :: t, h => by
      by_cases hpk : p.1 = k
      · simp [recLookup, hpk]
      · have ht : t.any (fun p => p.1 == k) = true := by
          simpa [hpk] using h
        have ih := recLookup_overwrite k v t ht
        simpa [recLookup, hpk] using ih

theorem recLookup_recInsert_self {α : Type} (m : List (String × α)) (k : String) (v : α) :
    recLookup (recInsert m k v) k = some v := by
  unfold recInsert
  split
  · rename_i hany
    exact recLookup_overwrite k v m hany
  · rename_i hany
    have hnone : m.find? (fun p => p.1 == k) = none := by
      rw [List.find?_eq_none]
      intro p hp hpk
      exact hany (List.any_eq_true.mpr ⟨p, hp, hpk⟩)
    simp [recLookup, List.find?_append, hnone]

theorem recHas_eq_isSome {α : Type} (m : List (String × α)) (k : String) :
    recHas m k = (recLookup m k).isSome := by
  simp only [recHas, recLookup]
  rw [Bool.eq_iff_iff, List.any_eq_true]
  simp [List.find?_isSome]

theorem keys_recInsert_of_mem {α : Type} (m : List (String × α)) (k : String) (v : α)
    (hany : m.any (fun p => p.1 == k) = true) :
    (recInsert m k v).map Prod.fst = m.map Prod.fst := by
  unfold recInsert
  rw [if_pos hany, List.map_map]
  refine List.map_congr_left ?_
  intro p _
  by_cases hp : p.1 = k
  · simp [Function.comp_apply, hp]
  · simp [Function.comp_apply, hp]

theorem keys_nodup_recInsert {α : Type} (m : List (String × α)) (k : String) (v : α)
    (hnd : (m.map Prod.fst).Nodup) : ((recInsert m k v).map Prod.fst).Nodup := by
  by_cases hany : m.any (fun p => p.1 == k) = true
  · rw [keys_recInsert_of_mem m k v hany]
    exact hnd
  · unfold recInsert
    rw [if_neg hany, List.map_append]
    rw [List.nodup_append]
    refine ⟨hnd, by simp, ?_⟩
    intro x hx
    simp only [List.map_cons, List.map_nil, List.mem_singleton]
    rintro rfl
    rw [List.mem_map] at hx
    obtain ⟨p, hp, hpk⟩ := hx
    exact hany (List.any_eq_true.mpr ⟨p, hp, by simp [hpk]⟩)

/-- Overwriting assignment on a present key in a duplicate-free record:
filtering for the key afterwards yields exactly the new binding. -/
theorem filter_overwrite {α : Type} (k : String) (v : α) :
    ∀ (m : List (String × α)), (m.map Prod.fst).Nodup →
      m.any (fun p => p.1 == k) = true →
      (m.map (fun p => if p.1 == k then (k, v) else p)).filter
        (fun p => p.1 == k) = [(k, v)]
  | [], _, h => by simp at h
  | p :: t, hnd, h => by
      simp only [List.map_cons, List.nodup_cons] at hnd
      by_cases hpk : p.1 = k
      · have hall : ∀ q ∈ t.map (fun p => if p.1 == k then (k, v) else p),
            ¬ (q.1 == k) = true := by
          intro q hq
          rw [List.mem_map] at hq
          obtain ⟨q0, hq0, rfl⟩ := hq
          have hq0k : q0.1 ≠ k := by
            intro hq0k
            exact hnd.1 (by
              rw [hpk, ← hq0k]
              exact List.mem_map_of_mem Prod.fst hq0)
          simp [hq0k]
        have htail := List.filter_eq_nil_iff.mpr hall
        have hpk2 : (p.1 == k) = true := by simp [hpk]
        rw [List.map_cons, if_pos hpk2, List.filter_cons_of_pos (by simp), htail]
      · have ht : t.any (fun p => p.1 == k) = true := by
          simpa [hpk] using h
        have ih := filter_overwrite k v t hnd.2 ht
        simpa [hpk, List.filter_cons] using ih

theorem filter_key_recInsert {α : Type} (m : List (String × α)) (k : String) (v : α)
    (hnd : (m.map Prod.fst).Nodup) :
    (recInsert m k v).filter (fun p => p.1 == k) = [(k, v)] := by
  unfold recInsert
  split
  · rename_i hany
    exact filter_overwrite k v m hnd hany
  · rename_i hany
    rw [List.filter_append]
    have hall : ∀ q ∈ m, ¬ (q.1 == k) = true := by
      intro q hq hqk
      exact hany (List.any_eq_true.mpr ⟨q, hq, hqk⟩)
    rw [List.filter_eq_nil_iff.mpr hall]
    simp

/-! ### Store write-through (C5) -/

/-- C5: after `approve(r)` on a store at path `p`, a freshly constructed
store at the same path reports `isVetted(r.key)`; and a second `approve`
with the same key overwrites in place — the key maps to the second rule and
exactly one entry with that key exists. -/
theorem store_write_through (fs : FS) (st : StoreState) (r r' : VettedRule)
    (now now' : String)
    (hnd : (st.store.rules.map Prod.fst).Nodup) (hk : r'.key = r.key) :
    isVetted (newStore (approve st fs r now).2 st.path) r.key = true ∧
    ((approve (approve st fs r now).1 (approve st fs r now).2 r' now').1.store.rules.filter
        (fun p => p.1 == r.key)) = [(r.key, { r' with vettedAt := now' })] ∧
    recLookup
        (approve (approve st fs r now).1 (approve st fs r now).2 r' now').1.store.rules
        r.key = some { r' with vettedAt := now' } := by
  refine ⟨?_, ?_, ?_⟩
  · show recHas (newStore _ st.path).store.rules r.key = true
    unfold newStore
    show recHas ((recLookup (saveStore _ _) st.path).getD _).rules r.key = true
    unfold saveStore
    rw [recLookup_recInsert_self]
    rw [recHas_eq_isSome]
    show ((recLookup (recInsert st.store.rules r.key _) r.key).isSome) = true
    rw [recLookup_recInsert_self]
    rfl
  · show ((recInsert (recInsert st.store.rules r.key _) r'.key _).filter _) = _
    rw [hk]
    exact filter_key_recInsert _ r.key _ (keys_nodup_recInsert _ _ _ hnd)
  · show recLookup (recInsert (recInsert st.store.rules r.key _) r'.key _) r.key = _
    rw [hk]
    exact recLookup_recInsert_self _ r.key _

/-- Witness for C5 on an empty filesystem and store. -/
theorem store_write_through_witness :
    isVetted
      (newStore
        (approve (newStore [] "vetted.json") [] wRule "2024-01-01").2 "vetted.json")
      wRule.key = true :=
  (store_write_through [] (newStore [] "vetted.json") wRule wRule2 "2024-01-01"
    "2024-01-02" (by decide) (by decide)).1

/-! ### RuleKey determinism (C8) -/

/-- C8: two rules with the same stage, the same first condition
(field, op, value) and the same first action (field, value) get the same
`ruleKey`, whatever their external ids, condition types, or further
conditions are. -/
theorem ruleKey_deterministic (r1 r2 : Rule) (hs : r1.stage = r2.stage)
    (c1 a1 c2 a2 : _) (hc1 : r1.conditions.head? = some c1)
    (ha1 : r1.actions.head? = some a1) (hc2 : r2.conditions.head? = some c2)
    (ha2 : r2.actions.head? = some a2)
    (hf : c1.field = c2.field) (ho : c1.op = c2.op) (hv : c1.value = c2.value)
    (hg : a1.field = a2.field) (hw : a1.value = a2.value) :
    ruleKey r1 = ruleKey r2 := by
  unfold ruleKey
  rw [hc1, ha1, hc2, ha2, hs]
  dsimp only
  rw [hf, ho, hv, hg, hw]

/-- Witness for C8: two rules differing in external id and in a second
condition share the key. -/
theorem ruleKey_deterministic_witness : ruleKey wRuleA = ruleKey wRuleB :=
  ruleKey_deterministic wRuleA wRuleB rfl wCondAmazon wActPayee wCondAmazon wActPayee
    rfl rfl rfl rfl rfl rfl rfl rfl rfl

/-! ### Condition matching against a missing clean payee (C10) -/

theorem jsLower_eq_empty_iff (s : String) : jsLower s = "" ↔ s = "" := by
  constructor
  · intro h
    have hd : (jsLower s).data = ([] : List Char) := by rw [h]
    rw [jsLower, data_mk, List.map_eq_nil_iff] at hd
    cases s
    simp_all
  · rintro rfl
    rfl

/-- C10: a condition on any field other than `imported_payee` (so `payee`,
`notes`, and `amount` alike) is evaluated against the clean-payee subject,
which defaults to the empty string when no clean payee is supplied; in
particular, with no clean payee, `contains` with an empty value matches and
`is` with a non-empty value does not. -/
theorem condition_empty_clean_subject (rx : String → String → Bool)
    (c : Condition) (rawPayee : String)
    (h : c.field ≠ CondField.imported_payee) :
    matchesCondition rx c rawPayee none = matchesCondition rx c "" (some "") ∧
    (c.op = CondOp.contains → c.value = "" →
      matchesCondition rx c rawPayee none = true) ∧
    (c.op = CondOp.is → c.value ≠ "" →
      matchesCondition rx c rawPayee none = false) := by
  refine ⟨?_, ?_, ?_⟩
  · simp [matchesCondition, h]
  · intro hop hval
    simp [matchesCondition, h, hop, hval, jsLower]
  · intro hop hval
    simp only [matchesCondition, h, if_neg, Option.getD_none, hop]
    rw [beq_eq_false_iff_ne]
    intro heq
    apply hval
    rw [← jsLower_eq_empty_iff]
    exact heq.symm

/-- Witness for C10 with a `notes` condition: `contains ""` matches with no
clean payee, and an `is "x"` condition does not. -/
theorem condition_empty_clean_subject_witness :
    (matchesCondition (fun _ _ => false) wCondContainsEmpty "RAW PAYEE" none = true) ∧
    (matchesCondition (fun _ _ => false) wCondIsX "RAW PAYEE" none = false) :=
  ⟨(condition_empty_clean_subject (fun _ _ => false) wCondContainsEmpty "RAW PAYEE"
      (by decide)).2.1 rfl rfl,
   (condition_empty_clean_subject (fun _ _ => false) wCondIsX "RAW PAYEE"
      (by decide)).2.2 rfl (by decide)⟩

/-! ### Consolidation acceptance (C9) -/

/-- The removal loop of `consolidateVettedRulesAccept` only touches the
store's rule record: it erases each group member's key in turn. -/
theorem consolidate_removed_rules :
    ∀ (group : List VettedRule) (st : StoreState) (fs : FS),
      ((group.foldl (fun p rule => removeRule p.1 p.2 rule.key) (st, fs)).1).store.rules =
        group.foldl (fun m rule => recErase m rule.key) st.store.rules
  | [], _, _ => rfl
  | g :: gs, st, fs =>
      consolidate_removed_rules gs (removeRule st fs g.key).1 (removeRule st fs g.key).2

theorem mem_recErase {α : Type} (m : List (String × α)) (k : String) (p : String × α) :
    p ∈ recErase m k ↔ p ∈ m ∧ ¬ p.1 = k := by
  simp [recErase, List.mem_filter]

theorem mem_foldl_recErase :
    ∀ (group : List VettedRule) (m : List (String × VettedRule)) (p : String × VettedRule),
      p ∈ group.foldl (fun m rule => recErase m rule.key) m ↔
        p ∈ m ∧ ∀ r ∈ group, ¬ p.1 = r.key
  | [], m, p => by simp
  | g :: gs, m, p => by
      rw [List.foldl_cons, mem_foldl_recErase gs, mem_recErase]
      constructor
      · rintro ⟨⟨hm, hg⟩, hgs⟩
        exact ⟨hm, by
          intro r hr
          rcases List.mem_cons.mp hr with rfl | hr
          · exact hg
          · exact hgs r hr⟩
      · rintro ⟨hm, hall⟩
        exact ⟨⟨hm, hall g (List.mem_cons_self _ _)⟩, fun r hr =>
          hall r (List.mem_cons_of_mem _ hr)⟩

theorem foldl_recErase_sublist :
    ∀ (group : List VettedRule) (m : List (String × VettedRule)),
      List.Sublist (group.foldl (fun m rule => recErase m rule.key) m) m
  | [], _ => List.Sublist.refl _
  | g :: gs, m =>
      (foldl_recErase_sublist gs (recErase m g.key)).trans
        (List.filter_sublist m)

/-- Overwriting a present key with a binding that satisfies `pred`, in a
duplicate-free record none of whose entries satisfies `pred`, leaves exactly
that binding in the `pred`-filter. -/
theorem filter_overwrite_of_allneg {α : Type} (k : String) (v : α)
    (pred : String × α → Bool) (hv : pred (k, v) = true) :
    ∀ (m : List (String × α)), (m.map Prod.fst).Nodup →
      (∀ q ∈ m, pred q = false) → m.any (fun p => p.1 == k) = true →
      (m.map (fun p => if p.1 == k then (k, v) else p)).filter pred = [(k, v)]
  | [], _, _, h => by simp at h
  | p :: t, hnd, hall, h => by
      simp only [List.map_cons, List.nodup_cons] at hnd
      have hallt : ∀ q ∈ t, pred q = false := fun q hq =>
        hall q (List.mem_cons_of_mem _ hq)
      by_cases hpk : p.1 = k
      · have hpk2 : (p.1 == k) = true := by simp [hpk]
        have htail : (t.map (fun p => if p.1 == k then (k, v) else p)).filter pred
            = [] := by
          rw [List.filter_eq_nil_iff]
          intro q hq
          rw [List.mem_map] at hq
          obtain ⟨q0, hq0, rfl⟩ := hq
          have hq0k : ¬ (q0.1 == k) = true := by
            intro hq0k
            exact hnd.1 (by
              rw [hpk, ← eq_of_beq hq0k]
              exact List.mem_map_of_mem Prod.fst hq0)
          rw [if_neg hq0k]
          simp [hallt q0 hq0]
        rw [List.map_cons, if_pos hpk2, List.filter_cons_of_pos hv, htail]
      · have ht : t.any (fun p => p.1 == k) = true := by
          simpa [hpk] using h
        have hpk2 : ¬ (p.1 == k) = true := by simp [hpk]
        rw [List.map_cons, if_neg hpk2,
          List.filter_cons_of_neg (by simp [hall p (List.mem_cons_self _ _)])]
        exact filter_overwrite_of_allneg k v pred hv t hnd.2 hallt ht

/-- Inserting a binding that satisfies `pred` into a duplicate-free record
none of whose entries satisfies `pred` leaves exactly that binding in the
`pred`-filter. -/
theorem filter_recInsert_of_allneg {α : Type} (m : List (String × α)) (k : String)
    (v : α) (pred : String × α → Bool)
    (hnd : (m.map Prod.fst).Nodup) (hall : ∀ q ∈ m, pred q = false)
    (hv : pred (k, v) = true) :
    (recInsert m k v).filter pred = [(k, v)] := by
  unfold recInsert
  split
  · rename_i hany
    exact filter_overwrite_of_allneg k v pred hv m hnd hall hany
  · rw [List.filter_append,
      List.filter_eq_nil_iff.mpr (fun q hq => by simp [hall q hq])]
    simp [hv]

/-- C9: accepting a consolidation for a group — all the store's pre-stage
rules sharing one clean name (case-insensitively), of size ≥ 2 — removes
every group member by key and approves exactly one consolidated rule, so the
store afterwards holds exactly one pre-stage rule for that clean name,
carrying the group's clean name and the accepted match pattern. -/
theorem consolidation_acceptance (st : StoreState) (fs : FS)
    (template : VettedRule) (rest : List VettedRule) (matchValue now : String)
    (hnd : (st.store.rules.map Prod.fst).Nodup)
    (hcons : ∀ p ∈ st.store.rules, p.2.key = p.1)
    (hgrp : template :: rest =
      (st.store.rules.filter (fun q => q.2.stage == Stage.pre &&
        (jsLower q.2.actionValue == jsLower template.actionValue))).map Prod.snd)
    (_hlen : 2 ≤ (template :: rest).length) :
    ((consolidateVettedRulesAccept st fs (template :: rest) matchValue now).1.store.rules.filter
        (fun q => q.2.stage == Stage.pre &&
          (jsLower q.2.actionValue == jsLower template.actionValue))) =
      [(consolidatedKey matchValue template.actionValue,
        consolidatedRule matchValue template.actionValue now)] := by
  have hstep : consolidateVettedRulesAccept st fs (template :: rest) matchValue now =
      approve
        ((template :: rest).foldl (fun p rule => removeRule p.1 p.2 rule.key) (st, fs)).1
        ((template :: rest).foldl (fun p rule => removeRule p.1 p.2 rule.key) (st, fs)).2
        (consolidatedRule matchValue template.actionValue now) now := rfl
  have happrove : ∀ (st1 : StoreState) (fs1 : FS) (rule : VettedRule) (nw : String),
      (approve st1 fs1 rule nw).1.store.rules =
        recInsert st1.store.rules rule.key { rule with vettedAt := nw } :=
    fun _ _ _ _ => rfl
  rw [hstep, happrove, consolidate_removed_rules (template :: rest) st fs]
  set m1 := (template :: rest).foldl (fun m rule => recErase m rule.key) st.store.rules with hm1
  refine filter_recInsert_of_allneg m1 _ _ _ ?_ ?_ ?_
  · exact List.Nodup.sublist
      ((foldl_recErase_sublist (template :: rest) st.store.rules).map Prod.fst) hnd
  · intro q hq
    rw [hm1, mem_foldl_recErase] at hq
    obtain ⟨hq0, hknot⟩ := hq
    by_contra hpred
    rw [Bool.not_eq_false] at hpred
    have hqf : q ∈ st.store.rules.filter (fun q => q.2.stage == Stage.pre &&
        (jsLower q.2.actionValue == jsLower template.actionValue)) :=
      List.mem_filter.mpr ⟨hq0, hpred⟩
    have hqg : q.2 ∈ template :: rest := by
      rw [hgrp]
      exact List.mem_map_of_mem Prod.snd hqf
    exact hknot q.2 hqg (hcons q hq0).symm
  · simp [consolidatedRule]

/-- Witness for C9 on a two-rule "Capital One" group with the suggested
pattern "CAPITAL ONE". -/
theorem consolidation_acceptance_witness :
    ((consolidateVettedRulesAccept wConsolStore [] [wCapRule1, wCapRule2]
        "CAPITAL ONE" "2024-02-02").1.store.rules.filter
        (fun q => q.2.stage == Stage.pre &&
          (jsLower q.2.actionValue == jsLower wCapRule1.actionValue))) =
      [(consolidatedKey "CAPITAL ONE" wCapRule1.actionValue,
        consolidatedRule "CAPITAL ONE" wCapRule1.actionValue "2024-02-02")] :=
  consolidation_acceptance wConsolStore [] wCapRule1 [wCapRule2] "CAPITAL ONE"
    "2024-02-02" (by decide) (by decide) (by decide) (by decide)

/-! ### Reconciliation safety (C6) -/

/-- In a duplicate-free record, two entries with the same key are the same
entry. -/
theorem entry_eq_of_key_eq {α : Type} {m : List (String × α)}
    (hnd : (m.map Prod.fst).Nodup) {p q : String × α}
    (hp : p ∈ m) (hq : q ∈ m) (hk : p.1 = q.1) : p = q :=
  List.inj_on_of_nodup_map hnd hp hq hk

/-- One `cleanCoveredByActual` iteration never deletes a pre-stage entry the
external rules do not cover, nor a null-stage entry they do not represent;
and it only ever shrinks the rule record. -/
theorem cleanStep_mem (preA nullA : List Rule) (pb : List (String × String))
    (m0 : List (String × VettedRule))
    (hnd : (m0.map Prod.fst).Nodup)
    (hcons : ∀ p ∈ m0, p.2.key = p.1)
    (acc : CleanAcc) (hsub : List.Sublist acc.rules m0)
    (vr : VettedRule) (hvr : vr ∈ m0.map Prod.snd) (hpre : vr.stage = Stage.pre)
    (p : String × VettedRule) (hp0 : p ∈ m0) (hp : p ∈ acc.rules)
    (hsafe : (p.2.stage = Stage.pre ∧ isCoveredB preA pb p.2 = false) ∨
      (p.2.stage = Stage.nullStage ∧ catRepresentedB nullA pb p.2 = false)) :
    p ∈ (cleanStep preA nullA pb acc vr).rules ∧
      List.Sublist (cleanStep preA nullA pb acc vr).rules m0 := by
  unfold cleanStep
  cases hid : nameToIdGet pb (jsLower vr.actionValue) with
  | none => exact ⟨hp, hsub⟩
  | some payeeId =>
    simp only
    split
    · rename_i hcov
      have hpkey : ¬ p.1 = vr.key := by
        intro hkey
        obtain ⟨q, hq, hq2⟩ := List.mem_map.mp hvr
        have hpq : p = q := entry_eq_of_key_eq hnd hp0 hq (by rw [hkey, ← hq2, hcons q hq])
        have h2 : p.2 = vr := by rw [hpq, hq2]
        rcases hsafe with ⟨-, hsafe⟩ | ⟨hstage, -⟩
        · rw [h2] at hsafe
          simp only [isCoveredB, hid, hcov] at hsafe
          cases hsafe
        · rw [h2, hpre] at hstage
          cases hstage
      have hp1 : p ∈ recErase acc.rules vr.key := (mem_recErase _ _ _).mpr ⟨hp, hpkey⟩
      have hsub1 : List.Sublist (recErase acc.rules vr.key) m0 :=
        (List.filter_sublist acc.rules).trans hsub
      cases hcat : ((recErase acc.rules vr.key).map Prod.snd).find? (fun r =>
          r.stage == Stage.nullStage &&
            jsLower r.matchValue == jsLower vr.actionValue) with
      | none => exact ⟨hp1, hsub1⟩
      | some catRule =>
        simp only
        split
        · rename_i hcatcov
          have hcmem : catRule ∈ (recErase acc.rules vr.key).map Prod.snd :=
            List.mem_of_find?_eq_some hcat
          have hcpred := List.find?_some hcat
          rw [Bool.and_eq_true, beq_iff_eq, beq_iff_eq] at hcpred
          have hpck : ¬ p.1 = catRule.key := by
            intro hkey
            obtain ⟨q, hq, hq2⟩ := List.mem_map.mp hcmem
            have hq0 : q ∈ m0 := hsub1.mem hq
            have hpq : p = q := entry_eq_of_key_eq hnd hp0 hq0 (by rw [hkey, ← hq2, hcons q hq0])
            have h2 : p.2 = catRule := by rw [hpq, hq2]
            rcases hsafe with ⟨hstage, -⟩ | ⟨-, hsafe⟩
            · rw [h2, hcpred.1] at hstage
              cases hstage
            · obtain ⟨ar, har, harcov⟩ := List.any_eq_true.mp hcatcov
              apply absurd hsafe
              rw [Bool.not_eq_false, catRepresentedB, List.any_eq_true]
              refine ⟨ar, har, ?_⟩
              rw [catCoversB] at harcov
              cases harc : ar.conditions.head? with
              | none => rw [harc] at harcov; cases harcov
              | some c =>
                rw [harc] at harcov
                rw [Bool.and_eq_true] at harcov
                rw [Bool.and_eq_true]
                refine ⟨harcov.1, ?_⟩
                have hlow : jsLower p.2.matchValue = jsLower vr.actionValue := by
                  rw [h2]; exact hcpred.2
                rw [Bool.or_eq_true] at harcov ⊢
                rcases harcov.2 with hc | hc
                · left
                  rw [hlow, hid]
                  simpa using (eq_of_beq hc).symm
                · right
                  rw [hlow]
                  exact hc
          refine ⟨(mem_recErase _ _ _).mpr ⟨hp1, hpck⟩, ?_⟩
          exact (List.filter_sublist _).trans hsub1
        · exact ⟨hp1, hsub1⟩
    · exact ⟨hp, hsub⟩

/-- The whole `cleanCoveredByActual` fold preserves safe entries. -/
theorem cleanFold_mem (preA nullA : List Rule) (pb : List (String × String))
    (m0 : List (String × VettedRule))
    (hnd : (m0.map Prod.fst).Nodup)
    (hcons : ∀ p ∈ m0, p.2.key = p.1)
    (p : String × VettedRule) (hp0 : p ∈ m0)
    (hsafe : (p.2.stage = Stage.pre ∧ isCoveredB preA pb p.2 = false) ∨
      (p.2.stage = Stage.nullStage ∧ catRepresentedB nullA pb p.2 = false)) :
    ∀ (snapshot : List VettedRule)
      (hsnap : ∀ vr ∈ snapshot, vr ∈ m0.map Prod.snd ∧ vr.stage = Stage.pre)
      (acc : CleanAcc) (hsub : List.Sublist acc.rules m0) (hp : p ∈ acc.rules),
      p ∈ (snapshot.foldl (cleanStep preA nullA pb) acc).rules
  | [], _, _, _, hp => hp
  | vr :: snap, hsnap, acc, hsub, hp => by
      rw [List.foldl_cons]
      obtain ⟨hvr, hvrpre⟩ := hsnap vr (List.mem_cons_self _ _)
      obtain ⟨hp', hsub'⟩ := cleanStep_mem preA nullA pb m0 hnd hcons acc hsub vr hvr
        hvrpre p hp0 hp hsafe
      exact cleanFold_mem preA nullA pb m0 hnd hcons p hp0 hsafe snap
        (fun v hv => hsnap v (List.mem_cons_of_mem _ hv)) _ hsub' hp'

/-- C6 (amended): `cleanCoveredByActual` removes a locally stored pre-stage
rule only when an external pre-stage rule encodes the identical
`(matchOp, matchField, matchValue) → entity id` mapping (pre-stage rules
with no such counterpart are untouched), and deletes a local categorize rule
only when an external null-stage rule also represents it; the tag entry for
the clean name, however, is deleted unconditionally along with the covered
pre-stage rule. -/
theorem reconciliation_safety (st : StoreState) (fs : FS)
    (actualRules : List Rule) (payeeById : List (String × String))
    (hnd : (st.store.rules.map Prod.fst).Nodup)
    (hcons : ∀ p ∈ st.store.rules, p.2.key = p.1) :
    (∀ p ∈ st.store.rules, p.2.stage = Stage.pre →
      isCoveredB (actualRules.filter (fun r => r.stage == Stage.pre)) payeeById
          p.2 = false →
      p ∈ (cleanCoveredByActual st fs actualRules payeeById).1.store.rules) ∧
    (∀ p ∈ st.store.rules, p.2.stage = Stage.nullStage →
      catRepresentedB (actualRules.filter (fun r => r.stage == Stage.nullStage))
          payeeById p.2 = false →
      p ∈ (cleanCoveredByActual st fs actualRules payeeById).1.store.rules) := by
  have hres : (cleanCoveredByActual st fs actualRules payeeById).1.store.rules =
      (((getAllRules st).filter (fun r => r.stage == Stage.pre)).foldl
        (cleanStep (actualRules.filter (fun r => r.stage == Stage.pre))
          (actualRules.filter (fun r => r.stage == Stage.nullStage)) payeeById)
        { rules := st.store.rules, tags := st.store.tags,
          sessionKeys := st.sessionKeys, changed := false }).rules := rfl
  have hsnap : ∀ vr ∈ (getAllRules st).filter (fun r => r.stage == Stage.pre),
      vr ∈ st.store.rules.map Prod.snd ∧ vr.stage = Stage.pre := by
    intro vr hvr
    rw [List.mem_filter] at hvr
    exact ⟨hvr.1, by simpa using hvr.2⟩
  constructor
  · intro p hp hstage hsafe
    rw [hres]
    exact cleanFold_mem _ _ payeeById st.store.rules hnd hcons p hp
      (Or.inl ⟨hstage, hsafe⟩) _ hsnap _ (List.Sublist.refl _) hp
  · intro p hp hstage hsafe
    rw [hres]
    exact cleanFold_mem _ _ payeeById st.store.rules hnd hcons p hp
      (Or.inr ⟨hstage, hsafe⟩) _ hsnap _ (List.Sublist.refl _) hp

/-- C6 (counterexample to the claim as stated): with no external null-stage
rules at all — so nothing externally represents the tag — reconciling the
store still deletes the tag entry of the covered pre-stage rule's clean
name. -/
theorem reconciliation_tag_cx :
    recHas wCleanStore.store.tags "Amazon" = true ∧
    ([wExtPre].filter (fun r => r.stage == Stage.nullStage)) = [] ∧
    recHas (cleanCoveredByActual wCleanStore [] [wExtPre] wPayeeById).1.store.tags
      "Amazon" = false := by decide

/-- Witness for the amended C6: an uncovered pre-stage rule survives
reconciliation against an empty external rule set. -/
theorem reconciliation_safety_witness :
    ("k1", wCapRule1) ∈
      (cleanCoveredByActual wConsolStore [] [] []).1.store.rules :=
  (reconciliation_safety wConsolStore [] [] [] (by decide) (by decide)).1
    ("k1", wCapRule1) (by decide) (by decide) (by decide)

/-! ### Coverage classification (C7) -/

/-- Unrolling the classification fold: each bucket collects the input
payees its per-payee bucket function selects, appended to the accumulator. -/
theorem classify_fold (rx : String → String → Bool) (preRules nullRules : List Rule)
    (pb : List (String × String)) :
    ∀ (uniques : List String) (acc : CoverageResult),
      uniques.foldl (fun acc rawPayee =>
        match classifyOne rx preRules nullRules pb rawPayee with
        | .covered => { acc with covered := acc.covered ++ [rawPayee] }
        | .needsCategory => { acc with needsCategory := acc.needsCategory ++ [rawPayee] }
        | .uncovered => { acc with uncovered := acc.uncovered ++ [rawPayee] }) acc =
      { covered := acc.covered ++ uniques.filter (fun p =>
          classifyOne rx preRules nullRules pb p == Bucket.covered),
        needsCategory := acc.needsCategory ++ uniques.filter (fun p =>
          classifyOne rx preRules nullRules pb p == Bucket.needsCategory),
        uncovered := acc.uncovered ++ uniques.filter (fun p =>
          classifyOne rx preRules nullRules pb p == Bucket.uncovered) }
  | [], acc => by simp
  | p :: t, acc => by
      rw [List.foldl_cons]
      cases hcls : classifyOne rx preRules nullRules pb p <;>
        rw [classify_fold rx preRules nullRules pb t] <;>
        simp [List.filter_cons, hcls]

/-- The three buckets are the three filters of the input. -/
theorem classifyByRuleCoverage_spec (rx : String → String → Bool) (rules : List Rule)
    (uniques : List String) (pb : List (String × String)) :
    classifyByRuleCoverage rx rules uniques pb =
      { covered := uniques.filter (fun p => classifyOne rx
          (rules.filter (fun r => r.stage == Stage.pre))
          (rules.filter (fun r => r.stage == Stage.nullStage)) pb p == Bucket.covered),
        needsCategory := uniques.filter (fun p => classifyOne rx
          (rules.filter (fun r => r.stage == Stage.pre))
          (rules.filter (fun r => r.stage == Stage.nullStage)) pb p == Bucket.needsCategory),
        uncovered := uniques.filter (fun p => classifyOne rx
          (rules.filter (fun r => r.stage == Stage.pre))
          (rules.filter (fun r => r.stage == Stage.nullStage)) pb p == Bucket.uncovered) } := by
  unfold classifyByRuleCoverage
  rw [classify_fold]
  simp

/-- Three mutually exclusive, exhaustive filters cover the whole list. -/
theorem three_filter_length (cls : String → Bucket) :
    ∀ (l : List String),
      (l.filter (fun p => cls p == Bucket.covered)).length +
        (l.filter (fun p => cls p == Bucket.needsCategory)).length +
        (l.filter (fun p => cls p == Bucket.uncovered)).length = l.length
  | [] => rfl
  | p :: t => by
      have ih := three_filter_length cls t
      cases h : cls p <;> simp [List.filter_cons, h] <;> omega

/-- C7 (amended): `classifyByRuleCoverage` partitions its input — the three
buckets are exactly the input payees filtered by the per-payee bucket
function, so they are pairwise disjoint as predicates and their lengths sum
to the input length.  A payee is `uncovered` exactly when no pre-stage rule
matches it or the first matching pre-stage rule's payee action is missing
*or has an empty-string value* (JS falsiness); it is `covered` exactly when
its nonempty entity id is targeted by some null-stage rule, either by an
id-typed first condition equal to the id or by a string-typed first
condition whose *rule matches the resolved display name* under the rule's
operators and combinator (the display name must resolve and be nonempty);
otherwise it is `needsCategory`. -/
theorem coverage_classification (rx : String → String → Bool) (rules : List Rule)
    (uniques : List String) (pb : List (String × String)) :
    (classifyByRuleCoverage rx rules uniques pb).covered =
        uniques.filter (fun p => classifyOne rx
          (rules.filter (fun r => r.stage == Stage.pre))
          (rules.filter (fun r => r.stage == Stage.nullStage)) pb p == Bucket.covered) ∧
    (classifyByRuleCoverage rx rules uniques pb).needsCategory =
        uniques.filter (fun p => classifyOne rx
          (rules.filter (fun r => r.stage == Stage.pre))
          (rules.filter (fun r => r.stage == Stage.nullStage)) pb p == Bucket.needsCategory) ∧
    (classifyByRuleCoverage rx rules uniques pb).uncovered =
        uniques.filter (fun p => classifyOne rx
          (rules.filter (fun r => r.stage == Stage.pre))
          (rules.filter (fun r => r.stage == Stage.nullStage)) pb p == Bucket.uncovered) ∧
    (classifyByRuleCoverage rx rules uniques pb).covered.length +
        (classifyByRuleCoverage rx rules uniques pb).needsCategory.length +
        (classifyByRuleCoverage rx rules uniques pb).uncovered.length =
      uniques.length ∧
    (∀ (preRules nullRules : List Rule) (p : String),
      classifyOne rx preRules nullRules pb p = Bucket.uncovered ↔
        preRules.find? (fun r => matchesRule rx r p none) = none ∨
          ∃ pr, preRules.find? (fun r => matchesRule rx r p none) = some pr ∧
            (payeeActionId pr = none ∨ payeeActionId pr = some "")) ∧
    (∀ (preRules nullRules : List Rule) (p : String),
      classifyOne rx preRules nullRules pb p = Bucket.covered ↔
        ∃ pr payeeId, preRules.find? (fun r => matchesRule rx r p none) = some pr ∧
          payeeActionId pr = some payeeId ∧ payeeId ≠ "" ∧
          catTargetsB rx nullRules (recLookup pb payeeId) payeeId = true) := by
  have hspec := classifyByRuleCoverage_spec rx rules uniques pb
  refine ⟨by rw [hspec], by rw [hspec], by rw [hspec], ?_, ?_, ?_⟩
  · rw [hspec]
    exact three_filter_length _ uniques
  · intro preRules nullRules p
    unfold classifyOne
    cases hfind : preRules.find? (fun r => matchesRule rx r p none) with
    | none => simp [hfind]
    | some pr =>
        simp only [hfind]
        cases hact : payeeActionId pr with
        | none => simp [hact]
        | some payeeId =>
            simp only [hact]
            by_cases hemp : payeeId = ""
            · simp [hemp, hact]
            · rw [if_neg hemp]
              constructor
              · intro h
                split at h <;> cases h
              · rintro (h | ⟨pr', hpr', hact'⟩)
                · cases h
                · rw [Option.some_inj] at hpr'
                  subst hpr'
                  rw [hact] at hact'
                  rcases hact' with h | h
                  · cases h
                  · rw [Option.some_inj] at h
                    exact absurd h hemp
  · intro preRules nullRules p
    unfold classifyOne
    cases hfind : preRules.find? (fun r => matchesRule rx r p none) with
    | none => simp [hfind]
    | some pr =>
        simp only [hfind]
        cases hact : payeeActionId pr with
        | none => simp [hact]
        | some payeeId =>
            simp only [hact]
            by_cases hemp : payeeId = ""
            · simp [hemp, hact]
            · rw [if_neg hemp]
              by_cases hcat : catTargetsB rx nullRules (recLookup pb payeeId) payeeId = true
              · rw [if_pos hcat]
                simp only [true_iff]
                exact ⟨pr, payeeId, rfl, hact, hemp, hcat⟩
              · rw [if_neg hcat]
                constructor
                · intro h
                  cases h
                · rintro ⟨pr', pid', hpr', hact', hemp', hcat'⟩
                  rw [Option.some_inj] at hpr'
                  subst hpr'
                  rw [hact, Option.some_inj] at hact'
                  subst hact'
                  exact absurd hcat' hcat

set_option maxHeartbeats 1600000 in
/-- C7 (counterexample to the claim as stated): the pre rule maps
"AMAZON MKTPL" to entity `p1` (display name "Amazon Marketplace"), and the
only categorize rule has a string-typed `contains "AMA"` condition.  No
condition in the rule set is id-typed and none has a value equal to the
display name, yet the payee lands in `covered` — the string-typed branch
runs full rule matching, not display-name equality. -/
theorem coverage_covered_cx :
    (classifyByRuleCoverage rxNone [wCxPreRule, wCxCatRule] ["AMAZON MKTPL"]
        wCxPayeeById).covered = ["AMAZON MKTPL"] ∧
    ([wCxPreRule, wCxCatRule].all (fun r => r.conditions.all
        (fun c => !(c.type == CondType.id)))) = true ∧
    ([wCxPreRule, wCxCatRule].all (fun r => r.conditions.all
        (fun c => !(c.value == "Amazon Marketplace")))) = true := by
  decide

end BudgetSherpa
